import Mathlib

/-!
Verification of the adaptive action-pattern cache (`actionPatternCache.ts`).

A JavaScript string is a finite sequence of characters; it is embedded as
`List Char` (`JSStr`), so that `toLowerCase`, `split(/\s+/)`, `includes`,
`substring` and template-literal concatenation become the structural list
operations `map Char.toLower`, `splitOnP Char.isWhitespace`, infix test,
`take` and `++`.  (`split(/\s+/)` collapses whitespace runs while `splitOnP`
keeps empty fragments between consecutive separators; the `length > 3` filter
applied right after removes those empties, so the composed keyword extraction
agrees.)

The cache state is modelled as a total function from cache keys to pattern
lists; a key absent from the JS `Map` behaves exactly like a key mapped to the
empty list in every method of the class, so the two representations agree.
JS `Date.now()` timestamps are integer milliseconds, passed explicitly as a
`now : Int` argument to each operation that reads the clock.  The platform URL
parser (`new URL`, a browser builtin outside this repository) is modelled as an
explicit parameter `parse : JSStr → Option URLParts`; `new URL` throwing on
malformed input corresponds to `none`, which is what the `try/catch` in
`getCacheKey` and `urlToPattern` handles.  Action records are opaque to the
cache and are modelled as natural numbers.  Floating-point arithmetic on
`confidence` is modelled over the reals.
-/

namespace ActionPatternCache

/-- A JavaScript string: a finite sequence of characters. -/
abbrev JSStr := List Char

/-- The pieces of a parsed URL that the cache reads. -/
structure URLParts where
  hostname : JSStr
  pathname : JSStr

/-- One cached action pattern (interface `CachedActionPattern`).
`urlPattern` stores the source string of the constructed `RegExp`, which the
class only ever builds and never evaluates. -/
structure CachedActionPattern where
  id : JSStr
  pattern : JSStr
  urlPattern : JSStr
  taskKeywords : List JSStr
  actions : List Nat
  successCount : Nat
  failureCount : Nat
  lastUsed : Int
  confidence : ℝ

/-- `private readonly maxCacheSize = 100`. -/
def maxCacheSize : Nat := 100

/-- `private readonly confidenceThreshold = 0.85`. -/
noncomputable def confidenceThreshold : ℝ := 0.85

/-- `private readonly ttl = 5 * 60 * 1000`. -/
def ttl : Int := 5 * 60 * 1000

/-- The `cache : Map<string, CachedActionPattern[]>` field; an absent key is
identified with the empty list (every method treats them alike). -/
abbrev CacheState := JSStr → List CachedActionPattern

/-- The freshly constructed cache: empty. -/
def initCache : CacheState := fun _ => []

/-- `getCacheKey`: parse as URL, on success `hostname + pathname` truncated to
100 characters, on failure the raw string truncated to 100 characters. -/
def getCacheKey (parse : JSStr → Option URLParts) (url : JSStr) : JSStr :=
  match parse url with
  | some u => (u.hostname ++ u.pathname).take 100
  | none => url.take 100

/-- `urlToPattern`: like `getCacheKey` but with the path truncated to 50. -/
def urlToPattern (parse : JSStr → Option URLParts) (url : JSStr) : JSStr :=
  match parse url with
  | some u => u.hostname ++ u.pathname.take 50
  | none => url.take 50

/-- `extractKeywords`: lower-case, split on whitespace, keep tokens longer
than 3 characters, take the first 5. -/
def extractKeywords (text : JSStr) : List JSStr :=
  (((text.map Char.toLower).splitOnP Char.isWhitespace).filter
    fun w => decide (3 < w.length)).take 5

/-- The predicate of the `patterns.find(...)` call in `getCachedActions`:
some task keyword occurs in the lower-cased task text, confidence is strictly
above the threshold, and the pattern was last used less than `ttl` ago. -/
def matchesQuery (keyword : JSStr) (now : Int) (p : CachedActionPattern) : Prop :=
  (∃ k ∈ p.taskKeywords, k <:+: keyword) ∧
    confidenceThreshold < p.confidence ∧ now - p.lastUsed < ttl

open Classical in
/-- `patterns.find(p => ...)`: first element satisfying `matchesQuery`. -/
noncomputable def findMatch (keyword : JSStr) (now : Int) :
    List CachedActionPattern → Option CachedActionPattern
  | [] => none
  | p :: rest =>
    if matchesQuery keyword now p then some p else findMatch keyword now rest

open Classical in
/-- `match.lastUsed = new Date()`: refresh `lastUsed` on the first matching
pattern, leaving the rest of the list untouched. -/
noncomputable def touchFirst (keyword : JSStr) (now : Int) :
    List CachedActionPattern → List CachedActionPattern
  | [] => []
  | p :: rest =>
    if matchesQuery keyword now p then { p with lastUsed := now } :: rest
    else p :: touchFirst keyword now rest

/-- `getCachedActions(url, taskDescription)`: returns the found pattern's
actions (or `none`) together with the state after the `lastUsed` refresh. -/
noncomputable def getCachedActions (parse : JSStr → Option URLParts)
    (c : CacheState) (now : Int) (url taskDescription : JSStr) :
    Option (List Nat) × CacheState :=
  let key := getCacheKey parse url
  let keyword := taskDescription.map Char.toLower
  match findMatch keyword now (c key) with
  | some m =>
    (some m.actions, fun k => if k = key then touchFirst keyword now (c k) else c k)
  | none => (none, c)

/-- The object literal built inside `cacheSuccessfulPattern`.  JS
`pattern || ‵pattern_${keywords[0]}‵` falls back on a missing or empty label;
with no extracted keywords, `keywords[0]` is `undefined` and the template
literal renders it as the text `undefined`. -/
noncomputable def mkNewPattern (parse : JSStr → Option URLParts) (now : Int)
    (url taskDescription : JSStr) (actions : List Nat) (patt : Option JSStr) :
    CachedActionPattern :=
  let key := getCacheKey parse url
  let keywords := extractKeywords taskDescription
  { id := key ++ ("_" ++ toString now).data
    pattern :=
      match patt with
      | some s =>
        if s = [] then ("pattern_").data ++ keywords.head?.getD (("undefined").data)
        else s
      | none => ("pattern_").data ++ keywords.head?.getD (("undefined").data)
    urlPattern := urlToPattern parse url
    taskKeywords := keywords
    actions := actions
    successCount := 1
    failureCount := 0
    lastUsed := now
    confidence := 0.85 }

open Classical in
/-- The `sort((a, b) => b.confidence - a.confidence)` comparison: `a` comes
before `b` when `a`'s confidence is at least `b`'s (descending order). -/
noncomputable def byConfidenceDesc (a b : CachedActionPattern) : Bool :=
  decide (b.confidence ≤ a.confidence)

/-- `cacheSuccessfulPattern(url, taskDescription, actions, pattern?)`: append
the new pattern to the key's list; if the list now exceeds `maxCacheSize`,
sort by confidence descending and `pop()` the last (lowest-confidence)
entry. -/
noncomputable def cacheSuccessfulPattern (parse : JSStr → Option URLParts)
    (c : CacheState) (now : Int) (url taskDescription : JSStr)
    (actions : List Nat) (patt : Option JSStr) : CacheState :=
  let key := getCacheKey parse url
  let withNew := c key ++ [mkNewPattern parse now url taskDescription actions patt]
  let patterns :=
    if maxCacheSize < withNew.length then (withNew.mergeSort byConfidenceDesc).dropLast
    else withNew
  fun k => if k = key then patterns else c k

/-- The per-pattern mutation of `updatePatternConfidence`: increment the
matching counter, then recompute `confidence` as the success rate damped by an
exponential decay over the time since last use.  `lastUsed` itself is not
written by the source. -/
noncomputable def updStep (now : Int) (success : Bool) (p : CachedActionPattern) :
    CachedActionPattern :=
  let sc := if success then p.successCount + 1 else p.successCount
  let fc := if success then p.failureCount else p.failureCount + 1
  let totalAttempts := sc + fc
  let successRate : ℝ := (sc : ℝ) / (totalAttempts : ℝ)
  let timeSinceUsed : ℝ := ((now - p.lastUsed : Int) : ℝ)
  let decayFactor : ℝ := Real.exp (-timeSinceUsed / (24 * 60 * 60 * 1000))
  { p with
    successCount := sc
    failureCount := fc
    confidence := successRate * (0.5 + 0.5 * decayFactor) }

/-- `patterns.find(x => x.pattern === pattern)` followed by the in-place
mutation: rewrite the first pattern with the given label, keep the rest. -/
noncomputable def updConf (now : Int) (label : JSStr) (success : Bool) :
    List CachedActionPattern → List CachedActionPattern
  | [] => []
  | p :: rest =>
    if p.pattern = label then updStep now success p :: rest
    else p :: updConf now label success rest

/-- `updatePatternConfidence(url, pattern, success)`.  A missing key or a
missing label is a no-op (the `[]` case of `updConf`). -/
noncomputable def updatePatternConfidence (parse : JSStr → Option URLParts)
    (c : CacheState) (now : Int) (url label : JSStr) (success : Bool) : CacheState :=
  let key := getCacheKey parse url
  fun k => if k = key then updConf now label success (c k) else c k

/-- `clearUrlCache(url)`: drop the derived key's patterns. -/
def clearUrlCache (parse : JSStr → Option URLParts) (c : CacheState)
    (url : JSStr) : CacheState :=
  fun k => if k = getCacheKey parse url then [] else c k

/-- `clearAll()`. -/
def clearAllCache (_c : CacheState) : CacheState := fun _ => []

/-- One call against the cache instance, tagged with the `Date.now()` value
the call observes (clearing calls never read the clock). -/
inductive CacheOp where
  | look (now : Int) (url task : JSStr)
  | store (now : Int) (url task : JSStr) (actions : List Nat) (patt : Option JSStr)
  | report (now : Int) (url label : JSStr) (success : Bool)
  | clearUrl (url : JSStr)
  | clearAll

/-- The clock value a call observes, when it reads the clock. -/
def opTime? : CacheOp → Option Int
  | .look now _ _ => some now
  | .store now _ _ _ _ => some now
  | .report now _ _ _ => some now
  | .clearUrl _ => none
  | .clearAll => none

/-- State transition of a single call. -/
noncomputable def applyOp (parse : JSStr → Option URLParts) (c : CacheState) :
    CacheOp → CacheState
  | .look now url task => (getCachedActions parse c now url task).2
  | .store now url task actions patt =>
    cacheSuccessfulPattern parse c now url task actions patt
  | .report now url label success =>
    updatePatternConfidence parse c now url label success
  | .clearUrl url => clearUrlCache parse c url
  | .clearAll => clearAllCache c

/-- Run a sequence of calls left to right. -/
noncomputable def runOps (parse : JSStr → Option URLParts) (c : CacheState) :
    List CacheOp → CacheState
  | [] => c
  | op :: rest => runOps parse (applyOp parse c op) rest

/-- The observed `Date.now()` values are nondecreasing along the sequence and
at least `t` (a monotone clock). -/
def chron (t : Int) : List CacheOp → Bool
  | [] => true
  | op :: rest =>
    decide (t ≤ (opTime? op).getD t) && chron ((opTime? op).getD t) rest

/-- Every pattern anywhere in the state has confidence inside `[0, 1]`. -/
def ConfidenceInvariant (c : CacheState) : Prop :=
  ∀ k, ∀ p ∈ c k, 0 ≤ p.confidence ∧ p.confidence ≤ 1

/-- A trivial URL model under which every identifier is malformed. -/
def noParse : JSStr → Option URLParts := fun _ => none

/-- A per-pattern boundedness invariant at clock value `t`: the pattern was
last used no later than `t` and its confidence lies in `[0, 1]`. -/
def PatBound (t : Int) (p : CachedActionPattern) : Prop :=
  p.lastUsed ≤ t ∧ 0 ≤ p.confidence ∧ p.confidence ≤ 1

/-- Every pattern in the state satisfies `PatBound t`. -/
def GoodState (t : Int) (c : CacheState) : Prop :=
  ∀ k, ∀ p ∈ c k, PatBound t p

/-- The clock value after a call sequence (threads `opTime?` like `chron`). -/
def endTime (t : Int) : List CacheOp → Int
  | [] => t
  | op :: rest => endTime ((opTime? op).getD t) rest

/-- A sample stored pattern used to instantiate general theorems. -/
noncomputable def pSample : CachedActionPattern :=
  { id := ("p0").data
    pattern := ("lbl").data
    urlPattern := ("u").data
    taskKeywords := [("github").data]
    actions := [1, 2]
    successCount := 1
    failureCount := 0
    lastUsed := 0
    confidence := confidenceThreshold }

/-- A concrete chronological call sequence: one store, one success report. -/
def opsSample : List CacheOp :=
  [CacheOp.store 0 (("K").data) (("github portfolio").data) [1, 2] none,
   CacheOp.report 7 (("K").data) (("pattern_github").data) true]

/-- A sample high-confidence pattern (for eviction scenarios). -/
noncomputable def hiPat : CachedActionPattern :=
  { id := ("hi").data
    pattern := ("hilbl").data
    urlPattern := ("u").data
    taskKeywords := [("github").data]
    actions := [3]
    successCount := 9
    failureCount := 0
    lastUsed := 0
    confidence := 0.9 }

/-- A cache state in which every key is full with 100 high-confidence
patterns. -/
noncomputable def cFull : CacheState := fun _ => List.replicate 100 hiPat

/-! ### Basic facts about the embedded operations -/

theorem mkNewPattern_taskKeywords (parse : JSStr → Option URLParts) (now : Int)
    (url task : JSStr) (actions : List Nat) (patt : Option JSStr) :
    (mkNewPattern parse now url task actions patt).taskKeywords = extractKeywords task :=
  rfl

theorem mkNewPattern_confidence (parse : JSStr → Option URLParts) (now : Int)
    (url task : JSStr) (actions : List Nat) (patt : Option JSStr) :
    (mkNewPattern parse now url task actions patt).confidence = confidenceThreshold :=
  rfl

theorem mkNewPattern_lastUsed (parse : JSStr → Option URLParts) (now : Int)
    (url task : JSStr) (actions : List Nat) (patt : Option JSStr) :
    (mkNewPattern parse now url task actions patt).lastUsed = now :=
  rfl

/-- Whatever `find` returns satisfies the search predicate. -/
theorem findMatch_some {keyword : JSStr} {now : Int}
    {l : List CachedActionPattern} {p : CachedActionPattern}
    (h : findMatch keyword now l = some p) : matchesQuery keyword now p := by
  induction l with
  | nil => simp [findMatch] at h
  | cons q rest ih =>
    rw [findMatch] at h
    by_cases hq : matchesQuery keyword now q
    · rw [if_pos hq] at h
      cases h
      exact hq
    · rw [if_neg hq] at h
      exact ih h

/-! ### Claim theorems -/

/-- C6: a pattern whose confidence is at most the threshold (0.85) is never
the pattern selected by a lookup, whatever its keywords or its age. -/
theorem C6_threshold_gating (keyword : JSStr) (now : Int)
    (l : List CachedActionPattern) (p : CachedActionPattern)
    (h : p.confidence ≤ confidenceThreshold) : findMatch keyword now l ≠ some p := by
  intro heq
  have hm := findMatch_some heq
  exact absurd hm.2.1 (not_lt.mpr h)

/-- C6 witness: a concrete pattern sitting exactly at the threshold is not
selected. -/
theorem C6_witness : findMatch (("github").data) 0 [pSample] ≠ some pSample :=
  C6_threshold_gating (("github").data) 0 [pSample] pSample (le_refl _)

/-- C7: once at least `ttl` milliseconds have passed since a pattern's
`lastUsed`, a lookup never selects it (the strict `< ttl` check fails),
regardless of its confidence or keywords. -/
theorem C7_ttl_miss (keyword : JSStr) (now : Int)
    (l : List CachedActionPattern) (p : CachedActionPattern)
    (h : p.lastUsed + ttl ≤ now) : findMatch keyword now l ≠ some p := by
  intro heq
  have hm := findMatch_some heq
  have hlt : now - p.lastUsed < ttl := hm.2.2
  omega

/-- C7 witness: a pattern last used at time 0 misses at exactly
`ttl = 300000`. -/
theorem C7_witness : findMatch (("github").data) 300000 [pSample] ≠ some pSample :=
  C7_ttl_miss (("github").data) 300000 [pSample] pSample (by decide)

/-- C9: `getCacheKey` is total by construction (the `try/catch` is an
`Option` match); a parsed URL gives `hostname ++ pathname` truncated to 100
characters, a parse failure gives the raw identifier truncated to 100. -/
theorem C9_deriveKey_total (parse : JSStr → Option URLParts) (url : JSStr) :
    (∀ u, parse url = some u →
      getCacheKey parse url = (u.hostname ++ u.pathname).take 100) ∧
    (parse url = none → getCacheKey parse url = url.take 100) := by
  constructor
  · intro u hu
    simp [getCacheKey, hu]
  · intro hn
    simp [getCacheKey, hn]

/-- C9 witness: both branches at concrete inputs. -/
theorem C9_witness :
    getCacheKey (fun _ => some ⟨("host").data, ("/path").data⟩) (("x").data) =
      (("host").data ++ ("/path").data).take 100 ∧
    getCacheKey noParse (("not a url").data) = (("not a url").data).take 100 :=
  ⟨(C9_deriveKey_total (fun _ => some ⟨("host").data, ("/path").data⟩) (("x").data)).1 _ rfl,
   (C9_deriveKey_total noParse (("not a url").data)).2 rfl⟩

/-- C10: when no whitespace-separated token of the (lower-cased) task
description is longer than 3 characters, the stored pattern's `taskKeywords`
is the empty list, and such a pattern is never selected by any lookup, since
the keyword-match condition is vacuously false over an empty keyword list. -/
theorem C10_empty_keywords_never_match (parse : JSStr → Option URLParts)
    (now : Int) (url task : JSStr) (actions : List Nat) (patt : Option JSStr)
    (h : ∀ w ∈ (task.map Char.toLower).splitOnP Char.isWhitespace, w.length ≤ 3) :
    (mkNewPattern parse now url task actions patt).taskKeywords = [] ∧
    ∀ keyword now2 l,
      findMatch keyword now2 l ≠ some (mkNewPattern parse now url task actions patt) := by
  have hkw : extractKeywords task = [] := by
    unfold extractKeywords
    rw [List.filter_eq_nil_iff.mpr]
    · rfl
    · intro w hw
      simp only [decide_eq_true_eq]
      intro hlen
      exact absurd (h w hw) (by omega)
  refine ⟨by rw [mkNewPattern_taskKeywords]; exact hkw, ?_⟩
  intro keyword now2 l heq
  have hm := findMatch_some heq
  obtain ⟨⟨k, hk, -⟩, -, -⟩ := hm
  rw [mkNewPattern_taskKeywords, hkw] at hk
  exact absurd hk (List.not_mem_nil k)

/-- Storing into a key that currently has no patterns leaves exactly the new
pattern under that key (the eviction branch is not taken at length 1). -/
theorem store_fresh_key (parse : JSStr → Option URLParts) (c : CacheState) (now : Int)
    (url task : JSStr) (actions : List Nat) (patt : Option JSStr)
    (h : c (getCacheKey parse url) = []) :
    cacheSuccessfulPattern parse c now url task actions patt (getCacheKey parse url)
      = [mkNewPattern parse now url task actions patt] := by
  simp only [cacheSuccessfulPattern]
  rw [if_pos trivial, h]
  norm_num [maxCacheSize]

/-- A pattern fresh from `cacheSuccessfulPattern` sits exactly at the
confidence threshold, so the strict `confidence > threshold` check refuses it:
a stored-but-never-reinforced pattern is unmatchable at any time. -/
theorem fresh_store_lookup_none (parse : JSStr → Option URLParts) (c : CacheState)
    (now now2 : Int) (url task task2 : JSStr) (actions : List Nat) (patt : Option JSStr)
    (h : c (getCacheKey parse url) = []) :
    (getCachedActions parse (cacheSuccessfulPattern parse c now url task actions patt)
      now2 url task2).1 = none := by
  have hnm : ¬ matchesQuery (task2.map Char.toLower) now2
      (mkNewPattern parse now url task actions patt) := by
    rintro ⟨-, hconf, -⟩
    rw [mkNewPattern_confidence] at hconf
    exact lt_irrefl _ hconf
  simp only [getCachedActions]
  rw [store_fresh_key parse c now url task actions patt h]
  rw [findMatch, if_neg hnm, findMatch]

/-- C1 (amended): after storing a pattern for a key with no prior patterns,
an immediately following lookup for the same page — with any task text —
returns no cached actions: the fresh pattern's confidence (0.85) is not
strictly greater than the threshold (0.85), so it never matches. -/
theorem C1_scenarioA_miss (parse : JSStr → Option URLParts) (c : CacheState)
    (now now2 : Int) (url task task2 : JSStr) (actions : List Nat) (patt : Option JSStr)
    (h : c (getCacheKey parse url) = []) :
    (getCachedActions parse (cacheSuccessfulPattern parse c now url task actions patt)
      now2 url task2).1 = none :=
  fresh_store_lookup_none parse c now now2 url task task2 actions patt h

/-- C1 witness: the amended scenario at concrete inputs. -/
theorem C1_witness :
    (getCachedActions noParse
      (cacheSuccessfulPattern noParse initCache 0 (("K").data) (("github portfolio").data)
        [1, 2] none)
      0 (("K").data) (("please open my github").data)).1 = none :=
  C1_scenarioA_miss noParse initCache 0 0 (("K").data) (("github portfolio").data)
    (("please open my github").data) [1, 2] none rfl

/-- C1 counterexample: Scenario A as the spec states it fails on the code —
storing keywords `["github", "portfolio"]` with actions `[1, 2]` and
immediately looking up "please open my github" does not return `[1, 2]`. -/
theorem C1_counterexample :
    (getCachedActions noParse
      (cacheSuccessfulPattern noParse initCache 5 (("K").data) (("github portfolio").data)
        [1, 2] none)
      5 (("K").data) (("please open my github").data)).1 ≠ some [1, 2] := by
  rw [fresh_store_lookup_none noParse initCache 5 5 (("K").data)
    (("github portfolio").data) (("please open my github").data) [1, 2] none rfl]
  simp

/-- `updStep` never writes `lastUsed`. -/
theorem updStep_lastUsed (now : Int) (success : Bool) (p : CachedActionPattern) :
    (updStep now success p).lastUsed = p.lastUsed :=
  rfl

/-- `updConf` leaves every pattern's `lastUsed` unchanged. -/
theorem updConf_lastUsed (now : Int) (label : JSStr) (success : Bool)
    (l : List CachedActionPattern) :
    (updConf now label success l).map (fun p => p.lastUsed) = l.map fun p => p.lastUsed := by
  induction l with
  | nil => rfl
  | cons p rest ih =>
    rw [updConf]
    by_cases hp : p.pattern = label
    · rw [if_pos hp]
      simp [updStep_lastUsed]
    · rw [if_neg hp]
      simp [ih]

/-- C2 (amended): `updatePatternConfidence` reads the pattern's pre-update
`lastUsed` for the decay factor but never writes `lastUsed`: after a
confidence update every pattern's `lastUsed` is exactly what it was before.
(`lastUsed` is refreshed only at creation and on a successful lookup.) -/
theorem C2_lastUsed_unchanged (parse : JSStr → Option URLParts) (c : CacheState)
    (now : Int) (url label : JSStr) (success : Bool) (k : JSStr) :
    (updatePatternConfidence parse c now url label success k).map (fun p => p.lastUsed)
      = (c k).map fun p => p.lastUsed := by
  simp only [updatePatternConfidence]
  by_cases hk : k = getCacheKey parse url
  · rw [if_pos hk]
    exact updConf_lastUsed now label success (c k)
  · rw [if_neg hk]

/-- C2 counterexample: a confidence update at time 5 on a pattern last used
at time 0 leaves `lastUsed` at 0, not at the current time 5. -/
theorem C2_counterexample :
    ((updatePatternConfidence noParse (fun _ => [pSample]) 5 (("K").data) (("lbl").data) true)
      (("K").data)).map (fun p => p.lastUsed) = [0] ∧ (0 : Int) ≠ 5 := by
  constructor
  · have h := updConf_lastUsed 5 (("lbl").data) true [pSample]
    simp only [updatePatternConfidence]
    rw [if_pos (by decide : (("K").data : JSStr) = getCacheKey noParse (("K").data))]
    rw [h]
    rfl
  · decide

/-- C3 (amended): a stored pattern's `taskKeywords` is exactly the extracted
keyword list — which is empty whenever extraction yields nothing; no
placeholder is substituted into `taskKeywords`.  Only the pattern *label*
falls back, to the literal text `pattern_undefined`, when no label was
supplied and no keyword exists. -/
theorem C3_keywords_stored_verbatim (parse : JSStr → Option URLParts) (now : Int)
    (url task : JSStr) (actions : List Nat) (patt : Option JSStr) :
    (mkNewPattern parse now url task actions patt).taskKeywords = extractKeywords task ∧
    (patt = none → extractKeywords task = [] →
      (mkNewPattern parse now url task actions patt).pattern = ("pattern_undefined").data) := by
  refine ⟨rfl, ?_⟩
  rintro rfl hkw
  show ("pattern_").data ++ (extractKeywords task).head?.getD (("undefined").data)
    = ("pattern_undefined").data
  rw [hkw]
  decide

/-- C3 witness: the fallback label at a concrete keyword-free task. -/
theorem C3_witness :
    (mkNewPattern noParse 0 (("K").data) (("ab cd").data) [] none).pattern
      = ("pattern_undefined").data :=
  (C3_keywords_stored_verbatim noParse 0 (("K").data) (("ab cd").data) [] none).2
    rfl (by decide)

/-- C3 counterexample: storing a task whose tokens are all short leaves a
pattern whose `taskKeywords` is the empty list, refuting the claimed
never-empty invariant. -/
theorem C3_counterexample :
    ¬ ∀ p ∈ cacheSuccessfulPattern noParse initCache 0 (("K").data) (("ab cd").data)
        [] none (("K").data), p.taskKeywords ≠ [] := by
  intro h
  have hs := store_fresh_key noParse initCache 0 (("K").data) (("ab cd").data) [] none rfl
  rw [(by decide : getCacheKey noParse (("K").data) = (("K").data))] at hs
  have hmem : mkNewPattern noParse 0 (("K").data) (("ab cd").data) [] none
      ∈ cacheSuccessfulPattern noParse initCache 0 (("K").data) (("ab cd").data)
        [] none (("K").data) := by
    rw [hs]
    exact List.mem_singleton.mpr rfl
  exact h _ hmem (by decide)

/-- The lookup's `lastUsed` refresh never changes the list length. -/
theorem length_touchFirst (keyword : JSStr) (now : Int) (l : List CachedActionPattern) :
    (touchFirst keyword now l).length = l.length := by
  induction l with
  | nil => rfl
  | cons q rest ih =>
    rw [touchFirst]
    by_cases hq : matchesQuery keyword now q
    · rw [if_pos hq]
      simp
    · rw [if_neg hq]
      simp [ih]

/-- The confidence update never changes the list length. -/
theorem length_updConf (now : Int) (label : JSStr) (success : Bool)
    (l : List CachedActionPattern) :
    (updConf now label success l).length = l.length := by
  induction l with
  | nil => rfl
  | cons q rest ih =>
    rw [updConf]
    by_cases hq : q.pattern = label
    · rw [if_pos hq]
      simp
    · rw [if_neg hq]
      simp [ih]

/-- Each single call keeps every key's pattern list within `maxCacheSize`. -/
theorem applyOp_size (parse : JSStr → Option URLParts) (c : CacheState) (op : CacheOp)
    (hc : ∀ k, (c k).length ≤ maxCacheSize) :
    ∀ k, (applyOp parse c op k).length ≤ maxCacheSize := by
  intro k
  cases op with
  | look now url task =>
    simp only [applyOp, getCachedActions]
    rcases hfm : findMatch (task.map Char.toLower) now (c (getCacheKey parse url)) with - | m
    · exact hc k
    · simp only
      by_cases hk : k = getCacheKey parse url
      · rw [if_pos hk, length_touchFirst]
        exact hc k
      · rw [if_neg hk]
        exact hc k
  | store now url task actions patt =>
    simp only [applyOp, cacheSuccessfulPattern]
    by_cases hk : k = getCacheKey parse url
    · rw [if_pos hk]
      by_cases hbig :
          maxCacheSize <
            (c (getCacheKey parse url) ++ [mkNewPattern parse now url task actions patt]).length
      · rw [if_pos hbig, List.length_dropLast, List.length_mergeSort]
        have := hc (getCacheKey parse url)
        simp only [List.length_append, List.length_cons, List.length_nil] at hbig ⊢
        omega
      · rw [if_neg hbig]
        simp only [List.length_append, List.length_cons, List.length_nil] at hbig ⊢
        omega
    · rw [if_neg hk]
      exact hc k
  | report now url label success =>
    simp only [applyOp, updatePatternConfidence]
    by_cases hk : k = getCacheKey parse url
    · rw [if_pos hk, length_updConf]
      exact hc k
    · rw [if_neg hk]
      exact hc k
  | clearUrl url =>
    simp only [applyOp, clearUrlCache]
    by_cases hk : k = getCacheKey parse url
    · rw [if_pos hk]
      simp [maxCacheSize]
    · rw [if_neg hk]
      exact hc k
  | clearAll =>
    simp [applyOp, clearAllCache, maxCacheSize]

/-- Running any call sequence keeps every key's list within `maxCacheSize`. -/
theorem runOps_size (parse : JSStr → Option URLParts) (ops : List CacheOp) :
    ∀ c : CacheState, (∀ k, (c k).length ≤ maxCacheSize) →
      ∀ k, ((runOps parse c ops) k).length ≤ maxCacheSize := by
  induction ops with
  | nil => exact fun c hc => hc
  | cons op rest ih =>
    intro c hc
    exact ih (applyOp parse c op) (applyOp_size parse c op hc)

/-- C4: starting from the empty cache, after any finite sequence of calls
(stores interleaved with lookups, confidence updates and clears), every key
holds at most `maxCacheSize = 100` patterns. -/
theorem C4_bounded_size (parse : JSStr → Option URLParts) (ops : List CacheOp)
    (k : JSStr) : ((runOps parse initCache ops) k).length ≤ maxCacheSize :=
  runOps_size parse ops initCache (fun _ => by simp [initCache, maxCacheSize]) k

/-- C10 witness: a task with only short tokens yields an empty keyword list
and an unmatchable pattern. -/
theorem C10_witness :
    (mkNewPattern noParse 0 (("K").data) (("ab cd").data) [] none).taskKeywords = [] ∧
    ∀ keyword now2 l,
      findMatch keyword now2 l ≠
        some (mkNewPattern noParse 0 (("K").data) (("ab cd").data) [] none) :=
  C10_empty_keywords_never_match noParse 0 (("K").data) (("ab cd").data) [] none (by decide)

/-- `PatBound` is monotone in the clock. -/
theorem PatBound.mono {t t2 : Int} {p : CachedActionPattern} (h : PatBound t p)
    (ht : t ≤ t2) : PatBound t2 p :=
  ⟨le_trans h.1 ht, h.2.1, h.2.2⟩

/-- The recomputed confidence — success rate times `0.5 + 0.5 · exp(−x/24h)` —
lies in `[0, 1]` whenever the elapsed time `x` is nonnegative and at least one
attempt is recorded. -/
theorem rate_decay_bound (sc fc : Nat) (x : ℝ) (hx : 0 ≤ x) (htot : 0 < sc + fc) :
    0 ≤ (sc : ℝ) / ((sc + fc : Nat) : ℝ) *
        (0.5 + 0.5 * Real.exp (-x / (24 * 60 * 60 * 1000))) ∧
    (sc : ℝ) / ((sc + fc : Nat) : ℝ) *
        (0.5 + 0.5 * Real.exp (-x / (24 * 60 * 60 * 1000))) ≤ 1 := by
  have hexp_pos := Real.exp_pos (-x / (24 * 60 * 60 * 1000))
  have hexp_le : Real.exp (-x / (24 * 60 * 60 * 1000)) ≤ 1 := by
    rw [Real.exp_le_one_iff]
    apply div_nonpos_of_nonpos_of_nonneg
    · linarith
    · norm_num
  have h0 : (0 : ℝ) < ((sc + fc : Nat) : ℝ) := by exact_mod_cast htot
  have hrate0 : 0 ≤ (sc : ℝ) / ((sc + fc : Nat) : ℝ) :=
    div_nonneg (Nat.cast_nonneg sc) h0.le
  have hrate1 : (sc : ℝ) / ((sc + fc : Nat) : ℝ) ≤ 1 := by
    rw [div_le_one h0]
    exact_mod_cast Nat.le_add_right sc fc
  constructor
  · apply mul_nonneg hrate0
    linarith
  · apply mul_le_one₀ hrate1 (by linarith) (by linarith)

/-- A confidence update at a time no earlier than the pattern's `lastUsed`
produces a pattern satisfying `PatBound now`. -/
theorem updStep_bound (now : Int) (success : Bool) (p : CachedActionPattern)
    (h : p.lastUsed ≤ now) : PatBound now (updStep now success p) := by
  have hx : (0 : ℝ) ≤ ((now - p.lastUsed : Int) : ℝ) := by
    exact_mod_cast sub_nonneg.mpr h
  have htot : 0 < (if success then p.successCount + 1 else p.successCount) +
      (if success then p.failureCount else p.failureCount + 1) := by
    cases success <;> simp
  have hb := rate_decay_bound (if success then p.successCount + 1 else p.successCount)
    (if success then p.failureCount else p.failureCount + 1)
    ((now - p.lastUsed : Int) : ℝ) hx htot
  refine ⟨?_, hb.1, hb.2⟩
  rw [updStep_lastUsed]
  exact h

/-- A freshly built pattern satisfies `PatBound` at its creation time. -/
theorem mkNewPattern_bound (parse : JSStr → Option URLParts) (now : Int)
    (url task : JSStr) (actions : List Nat) (patt : Option JSStr) :
    PatBound now (mkNewPattern parse now url task actions patt) := by
  refine ⟨le_of_eq (mkNewPattern_lastUsed parse now url task actions patt), ?_, ?_⟩ <;>
    rw [mkNewPattern_confidence] <;> norm_num [confidenceThreshold]

/-- Refreshing `lastUsed` on the matched pattern preserves the invariant at
the new clock value. -/
theorem touchFirst_bound (keyword : JSStr) (t now : Int) (l : List CachedActionPattern)
    (hl : ∀ p ∈ l, PatBound t p) (ht : t ≤ now) :
    ∀ p ∈ touchFirst keyword now l, PatBound now p := by
  induction l with
  | nil => simp [touchFirst]
  | cons q rest ih =>
    rw [touchFirst]
    by_cases hq : matchesQuery keyword now q
    · rw [if_pos hq]
      intro p hp
      rcases List.mem_cons.mp hp with rfl | hp
      · have hqb := hl q (List.mem_cons_self _ _)
        exact ⟨le_refl now, hqb.2.1, hqb.2.2⟩
      · exact (hl p (List.mem_cons_of_mem q hp)).mono ht
    · rw [if_neg hq]
      intro p hp
      rcases List.mem_cons.mp hp with rfl | hp
      · exact (hl p (List.mem_cons_self _ _)).mono ht
      · exact ih (fun r hr => hl r (List.mem_cons_of_mem q hr)) p hp

/-- A confidence update preserves the invariant at the new clock value. -/
theorem updConf_bound (now t : Int) (label : JSStr) (success : Bool)
    (l : List CachedActionPattern) (hl : ∀ p ∈ l, PatBound t p) (ht : t ≤ now) :
    ∀ p ∈ updConf now label success l, PatBound now p := by
  induction l with
  | nil => simp [updConf]
  | cons q rest ih =>
    rw [updConf]
    by_cases hq : q.pattern = label
    · rw [if_pos hq]
      intro p hp
      rcases List.mem_cons.mp hp with rfl | hp
      · exact updStep_bound now success q (le_trans (hl q (List.mem_cons_self _ _)).1 ht)
      · exact (hl p (List.mem_cons_of_mem q hp)).mono ht
    · rw [if_neg hq]
      intro p hp
      rcases List.mem_cons.mp hp with rfl | hp
      · exact (hl p (List.mem_cons_self _ _)).mono ht
      · exact ih (fun r hr => hl r (List.mem_cons_of_mem q hr)) p hp

/-- Each single call preserves the boundedness invariant at the clock value
it observes. -/
theorem applyOp_good (parse : JSStr → Option URLParts) (c : CacheState) (op : CacheOp)
    (t : Int) (hg : GoodState t c) (ht : t ≤ (opTime? op).getD t) :
    GoodState ((opTime? op).getD t) (applyOp parse c op) := by
  cases op with
  | look now url task =>
    simp only [opTime?, Option.getD_some] at ht ⊢
    simp only [applyOp, getCachedActions]
    rcases hfm : findMatch (task.map Char.toLower) now (c (getCacheKey parse url)) with - | m
    · intro k p hp
      exact (hg k p hp).mono ht
    · intro k p hp
      simp only at hp
      by_cases hk : k = getCacheKey parse url
      · rw [if_pos hk] at hp
        exact touchFirst_bound (task.map Char.toLower) t now (c k) (hg k) ht p hp
      · rw [if_neg hk] at hp
        exact (hg k p hp).mono ht
  | store now url task actions patt =>
    simp only [opTime?, Option.getD_some] at ht ⊢
    intro k p hp
    simp only [applyOp, cacheSuccessfulPattern] at hp
    by_cases hk : k = getCacheKey parse url
    · rw [if_pos hk] at hp
      have hpw : p ∈ c (getCacheKey parse url) ++
          [mkNewPattern parse now url task actions patt] := by
        by_cases hbig : maxCacheSize <
            (c (getCacheKey parse url) ++ [mkNewPattern parse now url task actions patt]).length
        · rw [if_pos hbig] at hp
          exact List.mem_mergeSort.mp (List.dropLast_subset _ hp)
        · rw [if_neg hbig] at hp
          exact hp
      rcases List.mem_append.mp hpw with hpc | hpn
      · exact (hg _ p hpc).mono ht
      · rw [List.mem_singleton.mp hpn]
        exact mkNewPattern_bound parse now url task actions patt
    · rw [if_neg hk] at hp
      exact (hg k p hp).mono ht
  | report now url label success =>
    simp only [opTime?, Option.getD_some] at ht ⊢
    intro k p hp
    simp only [applyOp, updatePatternConfidence] at hp
    by_cases hk : k = getCacheKey parse url
    · rw [if_pos hk] at hp
      exact updConf_bound now t label success (c k) (hg k) ht p hp
    · rw [if_neg hk] at hp
      exact (hg k p hp).mono ht
  | clearUrl url =>
    intro k p hp
    simp only [applyOp, clearUrlCache] at hp
    by_cases hk : k = getCacheKey parse url
    · rw [if_pos hk] at hp
      exact absurd hp (List.not_mem_nil p)
    · rw [if_neg hk] at hp
      exact hg k p hp
  | clearAll =>
    intro k p hp
    exact absurd hp (List.not_mem_nil p)

/-- Running a chronological call sequence preserves the invariant through to
the final clock value. -/
theorem runOps_good (parse : JSStr → Option URLParts) (ops : List CacheOp) :
    ∀ (t : Int) (c : CacheState), chron t ops = true → GoodState t c →
      GoodState (endTime t ops) (runOps parse c ops) := by
  induction ops with
  | nil => exact fun t c _ hg => hg
  | cons op rest ih =>
    intro t c hch hg
    rw [chron, Bool.and_eq_true, decide_eq_true_eq] at hch
    exact ih _ _ hch.2 (applyOp_good parse c op t hg hch.1)

/-- C5: starting from the empty cache, after any chronological sequence of
calls — stores, lookups and confidence updates with arbitrary success flags
and arbitrary (nonnegative) elapsed times — every stored pattern's confidence
lies in `[0, 1]`: the success rate is in `[0, 1]`, the decay factor
`exp(−elapsed/86 400 000)` is in `(0, 1]`, and the product with
`0.5 + 0.5 · decay` stays in `[0, 1]`. -/
theorem C5_confidence_range (parse : JSStr → Option URLParts) (t0 : Int)
    (ops : List CacheOp) (h : chron t0 ops = true) :
    ConfidenceInvariant (runOps parse initCache ops) := by
  have hg := runOps_good parse ops t0 initCache h
    (fun k p hp => absurd hp (List.not_mem_nil p))
  intro k p hp
  exact ⟨(hg k p hp).2.1, (hg k p hp).2.2⟩

/-- C5 witness: a concrete store followed by a later success report. -/
theorem C5_witness :
    chron 0 opsSample = true ∧ ConfidenceInvariant (runOps noParse initCache opsSample) :=
  ⟨by decide, C5_confidence_range noParse 0 opsSample (by decide)⟩

/-- The sort comparison is transitive (needed for `sorted_mergeSort`). -/
theorem byConfidenceDesc_trans : ∀ a b c : CachedActionPattern,
    byConfidenceDesc a b → byConfidenceDesc b c → byConfidenceDesc a c := by
  intro a b c hab hbc
  simp only [byConfidenceDesc, decide_eq_true_eq] at *
  exact le_trans hbc hab

/-- The sort comparison is total (needed for `sorted_mergeSort`). -/
theorem byConfidenceDesc_total : ∀ a b : CachedActionPattern,
    byConfidenceDesc a b || byConfidenceDesc b a := by
  intro a b
  simp only [byConfidenceDesc, Bool.or_eq_true, decide_eq_true_eq]
  exact le_total b.confidence a.confidence

/-- Sorting by confidence descending and dropping the tail removes exactly a
strictly-lowest-confidence element `p`: the result is one shorter and the
input is a permutation of `p` consed onto the result. -/
theorem evict_lowest (L : List CachedActionPattern) (p : CachedActionPattern)
    (hp : p ∈ L) (hmin : ∀ q ∈ L, q ≠ p → p.confidence < q.confidence) :
    ((L.mergeSort byConfidenceDesc).dropLast).length = L.length - 1 ∧
    L.Perm (p :: (L.mergeSort byConfidenceDesc).dropLast) := by
  have hperm : (L.mergeSort byConfidenceDesc).Perm L := List.mergeSort_perm L byConfidenceDesc
  have hSne : L.mergeSort byConfidenceDesc ≠ [] := by
    intro h0
    rw [← List.length_eq_zero, List.length_mergeSort] at h0
    rw [List.length_eq_zero] at h0
    rw [h0] at hp
    exact absurd hp (List.not_mem_nil p)
  have hdecomp := List.dropLast_append_getLast hSne
  have hsorted := @List.sorted_mergeSort CachedActionPattern byConfidenceDesc
    byConfidenceDesc_trans byConfidenceDesc_total L
  rw [← hdecomp] at hsorted
  have hlast_min : ∀ a ∈ (L.mergeSort byConfidenceDesc).dropLast,
      ((L.mergeSort byConfidenceDesc).getLast hSne).confidence ≤ a.confidence := by
    intro a ha
    have hpa := (List.pairwise_append.mp hsorted).2.2 a ha
      ((L.mergeSort byConfidenceDesc).getLast hSne) (List.mem_singleton.mpr rfl)
    simpa [byConfidenceDesc] using hpa
  have hlast_eq : (L.mergeSort byConfidenceDesc).getLast hSne = p := by
    by_contra hne
    have hlm : (L.mergeSort byConfidenceDesc).getLast hSne ∈ L :=
      hperm.subset (List.getLast_mem hSne)
    have h1 : p.confidence < ((L.mergeSort byConfidenceDesc).getLast hSne).confidence :=
      hmin _ hlm hne
    have hpS : p ∈ L.mergeSort byConfidenceDesc := hperm.mem_iff.mpr hp
    rw [← hdecomp] at hpS
    rcases List.mem_append.mp hpS with hpd | hps
    · exact absurd h1 (not_lt.mpr (hlast_min p hpd))
    · exact hne ((List.mem_singleton.mp hps).symm)
  constructor
  · rw [List.length_dropLast, List.length_mergeSort]
  · have h3 : L.Perm ((L.mergeSort byConfidenceDesc).dropLast ++ [p]) := by
      rw [← hlast_eq, hdecomp]
      exact hperm.symm
    exact h3.trans (List.perm_append_singleton p _)

/-- The store that overflows the key's list hands the appended list to the
sort-and-pop branch. -/
theorem store_full_key (parse : JSStr → Option URLParts) (c : CacheState) (now : Int)
    (url task : JSStr) (actions : List Nat) (patt : Option JSStr)
    (h : maxCacheSize ≤ (c (getCacheKey parse url)).length) :
    cacheSuccessfulPattern parse c now url task actions patt (getCacheKey parse url)
      = ((c (getCacheKey parse url) ++ [mkNewPattern parse now url task actions patt]).mergeSort
          byConfidenceDesc).dropLast := by
  simp only [cacheSuccessfulPattern]
  rw [if_pos trivial, if_pos]
  rw [List.length_append, List.length_cons, List.length_nil]
  omega

/-- C8: when a store overflows a full key (the list already holds
`maxCacheSize` patterns) and one candidate `p` — among the old patterns plus
the newly inserted one — has strictly the lowest confidence, exactly `p` is
removed: the key ends with exactly `maxCacheSize` patterns, and the candidate
multiset is a permutation of `p` consed onto the surviving list, so every
other candidate is still present. -/
theorem C8_eviction_exact (parse : JSStr → Option URLParts) (c : CacheState)
    (now : Int) (url task : JSStr) (actions : List Nat) (patt : Option JSStr)
    (p : CachedActionPattern)
    (hlen : (c (getCacheKey parse url)).length = maxCacheSize)
    (hp : p ∈ c (getCacheKey parse url) ++ [mkNewPattern parse now url task actions patt])
    (hmin : ∀ q ∈ c (getCacheKey parse url) ++
        [mkNewPattern parse now url task actions patt],
      q ≠ p → p.confidence < q.confidence) :
    (cacheSuccessfulPattern parse c now url task actions patt
        (getCacheKey parse url)).length = maxCacheSize ∧
    (c (getCacheKey parse url) ++
        [mkNewPattern parse now url task actions patt]).Perm
      (p :: cacheSuccessfulPattern parse c now url task actions patt
        (getCacheKey parse url)) := by
  have hstore := store_full_key parse c now url task actions patt (le_of_eq hlen.symm)
  have hev := evict_lowest
    (c (getCacheKey parse url) ++ [mkNewPattern parse now url task actions patt]) p hp hmin
  constructor
  · rw [hstore, hev.1, List.length_append, List.length_cons, List.length_nil, hlen]
    omega
  · rw [hstore]
    exact hev.2

/-- C8 witness: a key full with 100 confidence-0.9 patterns receives a fresh
confidence-0.85 pattern; that new pattern is itself the unique minimum and is
evicted. -/
theorem C8_witness :
    (cacheSuccessfulPattern noParse cFull 0 (("K").data) (("github portfolio").data)
        [1, 2] none (getCacheKey noParse (("K").data))).length = maxCacheSize ∧
    (cFull (getCacheKey noParse (("K").data)) ++
        [mkNewPattern noParse 0 (("K").data) (("github portfolio").data) [1, 2] none]).Perm
      (mkNewPattern noParse 0 (("K").data) (("github portfolio").data) [1, 2] none ::
        cacheSuccessfulPattern noParse cFull 0 (("K").data) (("github portfolio").data)
          [1, 2] none (getCacheKey noParse (("K").data))) :=
  C8_eviction_exact noParse cFull 0 (("K").data) (("github portfolio").data) [1, 2] none
    (mkNewPattern noParse 0 (("K").data) (("github portfolio").data) [1, 2] none)
    (by simp [cFull, maxCacheSize])
    (by simp [cFull])
    (by
      intro q hq hne
      rcases List.mem_append.mp hq with h1 | h1
      · rw [List.eq_of_mem_replicate h1, mkNewPattern_confidence]
        norm_num [confidenceThreshold, hiPat]
      · exact absurd (List.mem_singleton.mp h1) hne)

end ActionPatternCache
